import Mathlib

/-!
Shallow embedding of the search/ranking engine in `src/lib/search.ts` of the
vcestudyscores.com repository, together with theorems settling the frozen
claims about it.

Modelling conventions:
* JavaScript strings are `List Char` (`Str`); `toLowerCase`, `trim`,
  `split(/\s+/)`, `includes`, `startsWith` are modelled by the executable
  functions below.
* JavaScript numbers appearing as course ranks are modelled by `JSNum`
  (NaN, signed infinity, or a rational); other numeric values in the code
  (scores, priorities, timestamps) never become NaN and are modelled as
  `Int` / `Rat` / `Nat` directly.
* `Array.prototype.sort(cmp)` is modelled by the stable insertion sort
  `sortLe` (JavaScript's sort is stable; only the sign of the comparator
  matters, so a comparator `cmp` becomes the Bool test `cmp a b ≤ 0`).
* The external fuse.js library is opaque to this code base: a Fuse instance
  is modelled as the pair of the data and merged options it was constructed
  from (`FuseInst`), and its `search` method as an arbitrary function
  parameter `fs : FuseInst T → Str → List (T × Option Rat)` returning
  (item, score) pairs, which the theorems quantify over.
-/

abbrev Str := List Char

/-- JavaScript `String.prototype.toLowerCase` (ASCII-faithful). -/
def toLowerStr (s : Str) : Str := s.map Char.toLower

/-- JavaScript `String.prototype.trim`. -/
def trimStr (s : Str) : Str :=
  ((s.dropWhile Char.isWhitespace).reverse.dropWhile Char.isWhitespace).reverse

/-- JavaScript `hay.includes(needle)` for strings: substring containment. -/
def strIncludes (hay needle : Str) : Bool :=
  if needle.isPrefixOf hay then true
  else
    match hay with
    | [] => false
    | _ :: t => strIncludes t needle

/-- JavaScript `s.startsWith(p)`. -/
def strStartsWith (s p : Str) : Bool := p.isPrefixOf s

/-- Accumulator-passing splitter: splits a string at characters satisfying
`p`, dropping empty chunks.  `String.prototype.split(/\s+/)` can additionally
produce an empty first/last chunk for leading/trailing separators, but every
call site in the source filters the chunks by a positive minimum length, so
the two are interchangeable there. -/
def splitByAux (p : Char → Bool) : List Char → List Char → List Str
  | [], cur => if cur.isEmpty then [] else [cur.reverse]
  | c :: cs, cur =>
      if p c then
        if cur.isEmpty then splitByAux p cs []
        else cur.reverse :: splitByAux p cs []
      else splitByAux p cs (c :: cur)

/-- JavaScript `s.split(/\s+/)` modulo empty chunks (see `splitByAux`). -/
def splitWs (s : Str) : List Str := splitByAux (fun c => c.isWhitespace) s []

/-- JavaScript `s.split(/[\s,]+/)` modulo empty chunks. -/
def splitWsComma (s : Str) : List Str :=
  splitByAux (fun c => c.isWhitespace || c = ',') s []

@[simp] theorem strIncludes_nil (hay : Str) : strIncludes hay [] = true := by
  cases hay <;> simp [strIncludes, List.isPrefixOf]

/-!
Stable sort.  `sortLe le l` is insertion sort placing each element before the
first already-placed element `y` with `le x y`; with `le a b := cmp a b ≤ 0`
this is the (stable) result of JavaScript `l.sort(cmp)` for consistent
comparators, and a fixed stable algorithm choice otherwise.
-/

/-- Insert `x` before the first element `y` of `l` with `le x y = true`. -/
def insertLe (le : α → α → Bool) (x : α) : List α → List α
  | [] => [x]
  | y :: ys => if le x y then x :: y :: ys else y :: insertLe le x ys

/-- Stable insertion sort used to model JavaScript `Array.prototype.sort`. -/
def sortLe (le : α → α → Bool) : List α → List α
  | [] => []
  | x :: xs => insertLe le x (sortLe le xs)

theorem perm_insertLe (le : α → α → Bool) (x : α) (l : List α) :
    (insertLe le x l).Perm (x :: l) := by
  induction l with
  | nil => simp [insertLe]
  | cons y ys ih =>
      by_cases h : le x y = true
      · rw [insertLe, if_pos h]
      · rw [insertLe, if_neg h]
        exact (ih.cons y).trans (List.Perm.swap x y ys)

theorem perm_sortLe (le : α → α → Bool) (l : List α) :
    (sortLe le l).Perm l := by
  induction l with
  | nil => simp [sortLe]
  | cons x xs ih => exact (perm_insertLe le x (sortLe le xs)).trans (ih.cons x)

theorem mem_insertLe {le : α → α → Bool} {x y : α} {l : List α} :
    y ∈ insertLe le x l ↔ y = x ∨ y ∈ l :=
  (perm_insertLe le x l).mem_iff.trans (by simp)

theorem mem_sortLe {le : α → α → Bool} {x : α} {l : List α} :
    x ∈ sortLe le l ↔ x ∈ l :=
  (perm_sortLe le l).mem_iff

theorem pairwise_insertLe {le : α → α → Bool} {x : α} {l : List α}
    (total : ∀ a b, le a b = true ∨ le b a = true)
    (trans : ∀ a b c, le a b = true → le b c = true → le a c = true)
    (h : l.Pairwise fun a b => le a b = true) :
    (insertLe le x l).Pairwise fun a b => le a b = true := by
  induction l with
  | nil => simp [insertLe]
  | cons y ys ih =>
      cases h with
      | cons hy hys =>
        by_cases hxy : le x y = true
        · rw [insertLe, if_pos hxy]
          refine List.Pairwise.cons ?_ (List.Pairwise.cons hy hys)
          intro z hz
          rcases List.mem_cons.mp hz with rfl | hz
          · exact hxy
          · exact trans x y z hxy (hy z hz)
        · rw [insertLe, if_neg hxy]
          refine List.Pairwise.cons ?_ (ih hys)
          intro z hz
          rcases mem_insertLe.mp hz with h' | hz
          · rw [h']
            exact (total x y).resolve_left hxy
          · exact hy z hz

theorem pairwise_sortLe {le : α → α → Bool}
    (total : ∀ a b, le a b = true ∨ le b a = true)
    (trans : ∀ a b c, le a b = true → le b c = true → le a c = true)
    (l : List α) :
    (sortLe le l).Pairwise fun a b => le a b = true := by
  induction l with
  | nil => simp [sortLe]
  | cons x xs ih => exact pairwise_insertLe total trans ih

/-- Stability of `sortLe` for key-based descending comparators: the sublist
of elements carrying any fixed key value is unchanged by the sort.  No
hypothesis on `l` is needed, because `insertLe` only walks past elements
whose key is strictly larger than the inserted element's key. -/
theorem filter_insertLe_key {g : α → Int} {le : α → α → Bool}
    (hle : ∀ a b, le a b = true ↔ g b ≤ g a) (x : α) (l : List α) (s : Int) :
    (insertLe le x l).filter (fun a => decide (g a = s))
      = ((x :: l).filter (fun a => decide (g a = s))) := by
  induction l with
  | nil => rfl
  | cons y ys ih =>
      by_cases h : le x y = true
      · rw [insertLe, if_pos h]
      · have hgt : g x < g y := by
          have h2 : ¬ (g y ≤ g x) := fun hc => h ((hle x y).mpr hc)
          omega
        rw [insertLe, if_neg h]
        by_cases hxs : g x = s
        · have hys : ¬ (g y = s) := by omega
          simp [List.filter_cons, ih, hxs, hys]
        · by_cases hys : g y = s
          · simp [List.filter_cons, ih, hxs, hys]
          · simp [List.filter_cons, ih, hxs, hys]

theorem filter_sortLe_key {g : α → Int} {le : α → α → Bool}
    (hle : ∀ a b, le a b = true ↔ g b ≤ g a) (l : List α) (s : Int) :
    (sortLe le l).filter (fun a => decide (g a = s))
      = l.filter (fun a => decide (g a = s)) := by
  induction l with
  | nil => rfl
  | cons x xs ih =>
      rw [sortLe, filter_insertLe_key hle]
      simp [List.filter_cons, ih]

/-!
JavaScript numbers for course ranks, and `parseFloat`.
-/

/-- JavaScript floating point values as they occur in this code base:
NaN, signed infinity, or a finite value (modelled as a rational). -/
inductive JSNum where
  | nan : JSNum
  | inf (pos : Bool) : JSNum
  | num (q : Rat) : JSNum
deriving DecidableEq

/-- JavaScript `isNaN`. -/
def JSNum.isNaN : JSNum → Bool
  | .nan => true
  | _ => false

/-- Comparison `x < q` of a JavaScript number against a finite threshold. -/
def JSNum.ltQ : JSNum → Rat → Bool
  | .nan, _ => false
  | .inf pos, _ => !pos
  | .num x, q => decide (x < q)

/-- Comparison `x > q` of a JavaScript number against a finite threshold. -/
def JSNum.gtQ : JSNum → Rat → Bool
  | .nan, _ => false
  | .inf pos, _ => pos
  | .num x, q => decide (q < x)

/-- Sign of a JavaScript subtraction `x - y` as used by a sort comparator,
with a NaN result mapped to 0 exactly as `Array.prototype.sort` treats it. -/
def JSNum.subSign : JSNum → JSNum → Int
  | .nan, _ => 0
  | _, .nan => 0
  | .inf px, .inf py => if px = py then 0 else if px then 1 else -1
  | .inf px, .num _ => if px then 1 else -1
  | .num _, .inf py => if py then -1 else 1
  | .num a, .num b => if a < b then -1 else if b < a then 1 else 0

/-- Value of a digit run read as a natural number. -/
def digitsToNat (ds : List Char) : Nat :=
  ds.foldl (fun n c => 10 * n + (c.toNat - 48)) 0

/-- Exponent suffix of a JavaScript float literal: optional sign then digits;
an `e` with no following digits contributes exponent 0 (`parseFloat` keeps
the longest valid literal prefix, so `1e` parses as `1`). -/
def parseExp (r : Str) : Int :=
  let sgnRest : Bool × Str :=
    match r with
    | '-' :: t => (true, t)
    | '+' :: t => (false, t)
    | _ => (false, r)
  let ed := sgnRest.2.takeWhile Char.isDigit
  if ed.isEmpty then 0
  else if sgnRest.1 then -(digitsToNat ed : Int) else (digitsToNat ed : Int)

/-- JavaScript `parseFloat`: skips leading whitespace, accepts an optional
sign, then either `Infinity` or the longest decimal-literal prefix (integer
part, optional fraction, optional exponent); an input yielding no digits
parses to NaN. -/
def parseFloat (s : Str) : JSNum :=
  let s1 := s.dropWhile Char.isWhitespace
  let sgnRest : Bool × Str :=
    match s1 with
    | '-' :: r => (true, r)
    | '+' :: r => (false, r)
    | _ => (false, s1)
  let sgn := sgnRest.1
  let s2 := sgnRest.2
  if ("Infinity".toList).isPrefixOf s2 then .inf !sgn
  else
    let ip := s2.takeWhile Char.isDigit
    let r1 := s2.dropWhile Char.isDigit
    let fpRest : Str × Str :=
      match r1 with
      | '.' :: r => (r.takeWhile Char.isDigit, r.dropWhile Char.isDigit)
      | _ => ([], r1)
    let fp := fpRest.1
    let r2 := fpRest.2
    if ip.isEmpty && fp.isEmpty then .nan
    else
      let e : Int :=
        match r2 with
        | 'e' :: r => parseExp r
        | 'E' :: r => parseExp r
        | _ => 0
      let mantNum : Nat := digitsToNat ip * 10 ^ fp.length + digitsToNat fp
      let num : Int := (mantNum : Int) * (10 : Int) ^ e.toNat
      let den : Nat := 10 ^ fp.length * 10 ^ (-e).toNat
      .num (mkRat (if sgn then -num else num) den)

/-!
Search configuration, the Fuse instance model, and the search cache.
-/

/-- A Fuse key specification: a plain field name or a weighted field. -/
inductive FuseKey where
  | plain (name : Str) : FuseKey
  | weighted (name : Str) (weight : Rat) : FuseKey
deriving DecidableEq

/-- The `SearchOptions` record of `search.ts` (absent field = `none`). -/
structure SOpts where
  keys : List FuseKey
  threshold : Option Rat := none
  minMatchCharLength : Option Nat := none
  shouldSort : Option Bool := none
  includeScore : Option Bool := none
  ignoreLocation : Option Bool := none
  distance : Option Nat := none
deriving DecidableEq

/-- DEFAULT_SEARCH_OPTIONS from `search.ts`. -/
def DEFAULT_SEARCH_OPTIONS : SOpts :=
  { keys := []
    threshold := some (3 / 10)
    minMatchCharLength := some 1
    shouldSort := some true
    includeScore := some true
    ignoreLocation := some true
    distance := some 100 }

/-- JavaScript object spread `{...d, ...o}` on `SearchOptions`-shaped
records: a field missing from `o` keeps `d`'s value. -/
def mergeOpts (d o : SOpts) : SOpts :=
  { keys := o.keys
    threshold := o.threshold.or d.threshold
    minMatchCharLength := o.minMatchCharLength.or d.minMatchCharLength
    shouldSort := o.shouldSort.or d.shouldSort
    includeScore := o.includeScore.or d.includeScore
    ignoreLocation := o.ignoreLocation.or d.ignoreLocation
    distance := o.distance.or d.distance }

/-- A constructed Fuse index, identified by the data and merged options it
was built from; the searching behaviour of the external library over it is
abstracted as a function parameter of the definitions and theorems. -/
structure FuseInst (T : Type) where
  data : List T
  opts : SOpts
deriving DecidableEq

/-- getCacheKey from `search.ts` serialises the data length together with
the raw options; the pair models that JSON string. -/
def getCacheKey (data : List T) (options : SOpts) : Nat × SOpts :=
  (data.length, options)

/-- One entry of the search cache. -/
structure CachedSearch (T : Type) where
  fuse : FuseInst T
  timestamp : Nat
deriving DecidableEq

/-- The module-level `searchCache` map, as an association list whose update
follows JavaScript `Map.set` (replace in place, else append). -/
abbrev Cache (T : Type) := List ((Nat × SOpts) × CachedSearch T)

/-- JavaScript `Map.get`. -/
def findEntry (k : Nat × SOpts) : Cache T → Option (CachedSearch T)
  | [] => none
  | (k', e) :: rest => if k' = k then some e else findEntry k rest

/-- JavaScript `Map.set`: replaces the entry in place or appends it. -/
def setEntry (k : Nat × SOpts) (e : CachedSearch T) : Cache T → Cache T
  | [] => [(k, e)]
  | (k', e') :: rest =>
      if k' = k then (k, e) :: rest else (k', e') :: setEntry k e rest

/-- CACHE_TTL from `search.ts`: five minutes in milliseconds. -/
def CACHE_TTL : Nat := 5 * 60 * 1000

/-- clearExpiredCache from `search.ts`: deletes every entry strictly older
than the TTL. -/
def clearExpiredCache (now : Nat) (cache : Cache T) : Cache T :=
  cache.filter (fun kv => !decide ((now : Int) - kv.2.timestamp > CACHE_TTL))

/-- createFuzzySearch from `search.ts`: sweeps expired entries, then returns
the cached index for the key if present, otherwise builds (and caches) a new
index over `data` with the defaults spread under `options`. -/
def createFuzzySearch (now : Nat) (data : List T) (options : SOpts)
    (cache : Cache T) : FuseInst T × Cache T :=
  let cache1 := clearExpiredCache now cache
  let cacheKey := getCacheKey data options
  match findEntry cacheKey cache1 with
  | some cached => (cached.fuse, cache1)
  | none =>
      let fuse : FuseInst T :=
        { data := data, opts := mergeOpts DEFAULT_SEARCH_OPTIONS options }
      (fuse, setEntry cacheKey { fuse := fuse, timestamp := now } cache1)

/-- Effective `options.minMatchCharLength || 1` (JavaScript `||`: both 0 and
undefined fall back to 1). -/
def minMatchOr1 (o : Option Nat) : Nat :=
  match o with
  | some m => if m = 0 then 1 else m
  | none => 1

/-- fuzzySearch from `search.ts`; `fs` abstracts `fuse.search`. -/
def fuzzySearch (fs : FuseInst T → Str → List (T × Option Rat)) (now : Nat)
    (data : List T) (query : Str) (options : SOpts) (cache : Cache T) :
    List T × Cache T :=
  if query = [] ∨ trimStr query = [] then (data, cache)
  else
    let trimmedQuery := trimStr query
    if trimmedQuery.length < minMatchOr1 options.minMatchCharLength then
      ([], cache)
    else
      let fuseCache := createFuzzySearch now data options cache
      ((fs fuseCache.1 trimmedQuery).map Prod.fst, fuseCache.2)

/-!
Hybrid search over generic records.
-/

/-- Generic record for `hybridSearch`: an identifier plus string-valued
fields accessed by name, modelling `(item as any)[key]`. -/
structure Item where
  id : Nat
  fields : List (Str × Str)
deriving DecidableEq

/-- Field access by name; an absent key is JavaScript `undefined`. -/
def Item.get (it : Item) (k : Str) : Option Str := it.fields.lookup k

/-- Exact-match test of `hybridSearch` for one key: the value must be a
non-empty string (JavaScript truthiness guard `value && typeof value ===
'string'`) that case-insensitively equals or starts with the query. -/
def keyExact (tq : Str) (it : Item) (k : Str) : Bool :=
  match it.get k with
  | some v => !v.isEmpty && (toLowerStr v == tq || strStartsWith (toLowerStr v) tq)
  | none => false

/-- Exact-match test over the key list; the source breaks out of the key
loop at the first match, which is observationally `List.any`. -/
def itemIsExact (exactMatchKeys : List Str) (tq : Str) (it : Item) : Bool :=
  exactMatchKeys.any (keyExact tq it)

/-- hybridSearch from `search.ts`. -/
def hybridSearch (fs : FuseInst Item → Str → List (Item × Option Rat))
    (now : Nat) (data : List Item) (query : Str) (options : SOpts)
    (exactMatchKeys : List Str) (cache : Cache Item) :
    List Item × Cache Item :=
  if query = [] ∨ trimStr query = [] then (data, cache)
  else
    let trimmedQuery := toLowerStr (trimStr query)
    let buckets := data.partition (itemIsExact exactMatchKeys trimmedQuery)
    let exactMatches := buckets.1
    let fuzzyMatches := buckets.2
    if exactMatches.isEmpty then fuzzySearch fs now data query options cache
    else
      let fr := fuzzySearch fs now fuzzyMatches query options cache
      (exactMatches ++ fr.1.filter (fun item => !exactMatches.contains item),
        fr.2)

/-!
Course search.
-/

/-- Category of an enriched course. -/
inductive Category where
  | safe
  | target
  | reach
  | unknown
deriving DecidableEq

/-- The category filter of `CourseSearchOptions`. -/
inductive CatFilter where
  | all
  | safe
  | target
  | reach
deriving DecidableEq

/-- Course record from `search.ts`; the optional extended metadata fields
take no part in any search logic and are omitted. -/
structure Course where
  code : Str
  name : Str
  rank : Str
  institution : Str
  campus : Str
deriving DecidableEq

/-- EnrichedCourse from `search.ts`. -/
structure EnrichedCourse where
  code : Str
  name : Str
  rank : Str
  institution : Str
  campus : Str
  category : Category
  rankNum : JSNum
  searchText : Str
deriving DecidableEq

/-- CourseSearchOptions from `search.ts` (absent field = `none`). -/
structure CourseSearchOptions where
  searchTerm : Option Str := none
  category : Option CatFilter := none
  atar : Option Rat := none
  limit : Option Nat := none

/-- Body of the `courses.map` callback of enrichCourses from `search.ts`. -/
def enrichCourse (atar : Rat) (course : Course) : EnrichedCourse :=
    let catRank : Category × JSNum :=
      if course.rank = "N/P".toList ∨ course.rank = "L/N".toList ∨
          course.rank = "RC".toList then
        (Category.unknown, JSNum.num 0)
      else
        let rankNum := parseFloat course.rank
        if !rankNum.isNaN then
          (if rankNum.ltQ (atar - 5) then Category.safe
           else if rankNum.gtQ (atar + 5) then Category.reach
           else Category.target,
           rankNum)
        else (Category.unknown, rankNum)
    { code := course.code, name := course.name, rank := course.rank,
      institution := course.institution, campus := course.campus,
      category := catRank.1, rankNum := catRank.2,
      searchText :=
        course.institution ++ [' '] ++ course.name ++ [' '] ++ course.code }

/-- enrichCourses from `search.ts`. -/
def enrichCourses (courses : List Course) (atar : Rat) : List EnrichedCourse :=
  courses.map (enrichCourse atar)

/-- Qualifying words of a search term: the lowercased term split on
whitespace, keeping only words of length at least 2. -/
def qualifyingWords (searchTerm : Str) : List Str :=
  (splitWs (toLowerStr searchTerm)).filter (fun w => decide (2 ≤ w.length))

/-- Tier score of one search word against one course: the first matching
tier wins. -/
def tierScore (course : EnrichedCourse) (word : Str) : Int :=
  if toLowerStr course.institution = word then 100
  else if toLowerStr course.name = word then 90
  else if strStartsWith (toLowerStr course.institution) word then 50
  else if strStartsWith (toLowerStr course.name) word then 40
  else if strIncludes (toLowerStr course.institution) (' ' :: word) then 20
  else if strIncludes (toLowerStr course.name) (' ' :: word) then 15
  else 1

/-- Total relevance score of a course: per-word tier scores summed over the
search words. -/
def courseScore (words : List Str) (course : EnrichedCourse) : Int :=
  words.foldl (fun score w => score + tierScore course w) 0

/-- wordBasedSearch from `search.ts`. -/
def wordBasedSearch (courses : List EnrichedCourse) (searchTerm : Str) :
    List EnrichedCourse :=
  let words := qualifyingWords searchTerm
  if words.isEmpty then courses
  else
    let matchedCourses := courses.filter fun course =>
      words.all fun word => strIncludes (toLowerStr course.searchText) word
    if matchedCourses.isEmpty then []
    else
      let scored := matchedCourses.map fun course => (course, courseScore words course)
      (sortLe (fun a b => decide (b.2 - a.2 ≤ 0)) scored).map Prod.fst

/-- Fuse options of the fuzzy fallback in `searchCourses`. -/
def courseFuseOpts : SOpts :=
  { keys := [FuseKey.weighted "searchText".toList 2,
             FuseKey.weighted "name".toList (3 / 2),
             FuseKey.weighted "institution".toList (3 / 2),
             FuseKey.weighted "code".toList 1]
    threshold := some (2 / 5)
    minMatchCharLength := some 2 }

/-- Truthiness of the `searchTerm` option (JavaScript `searchTerm && ...`). -/
def searchTermTruthy (o : Option Str) : Bool :=
  match o with
  | some s => !s.isEmpty
  | none => false

/-- Equality test between a course category and a category filter value (a
string comparison in the source). -/
def catMatches (cat : Category) (f : CatFilter) : Bool :=
  match cat, f with
  | .safe, .safe => true
  | .target, .target => true
  | .reach, .reach => true
  | _, _ => false

/-- Category filter applied after search; skipped when the option is absent
or equals `'all'`. -/
def applyCategoryFilter (category : Option CatFilter)
    (results : List EnrichedCourse) : List EnrichedCourse :=
  match category with
  | some c =>
      if c ≠ CatFilter.all then results.filter (fun x => catMatches x.category c)
      else results
  | none => results

/-- Comparator of the rank sort used when no search term was given. -/
def rankCmp (a b : EnrichedCourse) : Int :=
  if a.category = Category.unknown ∧ b.category ≠ Category.unknown then 1
  else if a.category ≠ Category.unknown ∧ b.category = Category.unknown then -1
  else JSNum.subSign b.rankNum a.rankNum

/-- Limit application (`if (limit && limit > 0)`). -/
def applyLimit (limit : Option Nat) (results : List EnrichedCourse) :
    List EnrichedCourse :=
  match limit with
  | some l => if 0 < l then results.take l else results
  | none => results

/-- Search stage of `searchCourses` (the `if (searchTerm && searchTerm.trim())`
block): word-based search first, fuzzy fallback through the cache. -/
def courseSearchStage
    (fs : FuseInst EnrichedCourse → Str → List (EnrichedCourse × Option Rat))
    (now : Nat) (enriched : List EnrichedCourse) (searchTerm : Option Str)
    (cache : Cache EnrichedCourse) :
    List EnrichedCourse × Cache EnrichedCourse :=
  if searchTermTruthy searchTerm ∧ trimStr (searchTerm.getD []) ≠ [] then
    let trimmed := trimStr (searchTerm.getD [])
    let wordMatches := wordBasedSearch enriched trimmed
    let isMultiWord :=
      1 < ((splitWs trimmed).filter (fun w => decide (2 ≤ w.length))).length
    if ¬ wordMatches.isEmpty = true ∧ (isMultiWord ∨ 3 ≤ wordMatches.length)
    then (wordMatches, cache)
    else
      let fuseCache := createFuzzySearch now enriched courseFuseOpts cache
      ((fs fuseCache.1 trimmed).map Prod.fst, fuseCache.2)
  else (enriched, cache)

/-- searchCourses from `search.ts`; `fs` abstracts `fuse.search`. -/
def searchCourses
    (fs : FuseInst EnrichedCourse → Str → List (EnrichedCourse × Option Rat))
    (now : Nat) (courses : List Course) (options : CourseSearchOptions)
    (cache : Cache EnrichedCourse) :
    List EnrichedCourse × Cache EnrichedCourse :=
  let atar := options.atar.getD 0
  let enriched := enrichCourses courses atar
  let searched := courseSearchStage fs now enriched options.searchTerm cache
  let results1 := applyCategoryFilter options.category searched.1
  let results2 :=
    if ¬ searchTermTruthy options.searchTerm = true then
      sortLe (fun a b => decide (rankCmp a b ≤ 0)) results1
    else results1
  (applyLimit options.limit results2, searched.2)

/-!
Subject search.
-/

/-- Subject record from `search.ts`; the `scaling` map takes no part in the
ranking and is omitted. -/
structure Subject where
  code : Str
  name : Str
  mean : Option Rat := none
  stdev : Option Rat := none
deriving DecidableEq

/-- SubjectSearchOptions from `search.ts`. -/
structure SubjectSearchOptions where
  query : Str
  aliases : Option (List (Str × List Str)) := none
  limit : Option Nat := none

/-- normaliseSubjectQuery from `search.ts`: accumulates the target names of
every alias the query equals, or starts with when followed by a space. -/
def normaliseSubjectQuery (query : Str)
    (aliases : Option (List (Str × List Str))) : Str × List Str :=
  let normalisedQuery := toLowerStr (trimStr query)
  let aliasTargets :=
    match aliases with
    | none => []
    | some entries =>
        entries.foldl
          (fun acc kv =>
            if normalisedQuery = kv.1 ∨
                strStartsWith normalisedQuery (kv.1 ++ [' '])
            then acc ++ kv.2 else acc)
          []
  (normalisedQuery, aliasTargets)

/-- Priority score of `searchSubjects`: every applicable bonus is added. -/
def subjectPriority (aliasTargets : List Str) (normalisedQuery : Str)
    (s : Subject) : Int :=
  let nameLower := toLowerStr s.name
  let codeLower := toLowerStr s.code
  let p1 := aliasTargets.foldl
    (fun p target => if nameLower = toLowerStr target then p + 100 else p) 0
  let p2 := aliasTargets.foldl
    (fun p target =>
      if strStartsWith nameLower (toLowerStr target) then p + 50 else p) p1
  let p3 := if nameLower = normalisedQuery then p2 + 80 else p2
  let p4 := if strStartsWith nameLower normalisedQuery then p3 + 40 else p3
  let p5 := if codeLower = normalisedQuery then p4 + 70 else p4
  if strStartsWith codeLower normalisedQuery then p5 + 30 else p5

/-- Fuse options of the fuzzy tier in `searchSubjects`. -/
def subjectFuseOpts : SOpts :=
  { keys := [FuseKey.weighted "name".toList 2, FuseKey.weighted "code".toList 1]
    threshold := some (3 / 10)
    minMatchCharLength := some 2 }

/-- JavaScript `score || 1` on an optional fuse score (undefined and 0 both
become 1). -/
def scoreOr1 (o : Option Rat) : Rat :=
  match o with
  | some q => if q = 0 then 1 else q
  | none => 1

/-- Fuzzy tier of `searchSubjects` (the `if (lowPriority.length > 0)` block):
fuzzy-searches the zero-priority subjects and sorts ascending by the
`score || 1` fuse score. -/
def subjectFuzzyStage
    (fs : FuseInst Subject → Str → List (Subject × Option Rat))
    (now : Nat) (lowPriority : List (Subject × Int)) (nq : Str)
    (cache : Cache Subject) : List Subject × Cache Subject :=
  if ¬ lowPriority.isEmpty = true then
    let fuseCache :=
      createFuzzySearch now (lowPriority.map Prod.fst) subjectFuseOpts cache
    let sortedResults :=
      sortLe (fun a b => decide (scoreOr1 a.2 - scoreOr1 b.2 ≤ 0))
        (fs fuseCache.1 nq)
    (sortedResults.map Prod.fst, fuseCache.2)
  else ([], cache)

/-- searchSubjects from `search.ts`; `fs` abstracts `fuse.search`.  The
searchText enrichment (`name + " " + code`) added before scoring touches no
field read by the priority computation nor by the configured fuzzy keys
(`name`, `code`), so enriched subjects are represented by the subjects
themselves. -/
def searchSubjects
    (fs : FuseInst Subject → Str → List (Subject × Option Rat))
    (now : Nat) (subjects : List Subject) (options : SubjectSearchOptions)
    (cache : Cache Subject) : List Subject × Cache Subject :=
  let limit := options.limit.getD 50
  if options.query = [] ∨ trimStr options.query = [] then
    (subjects.take limit, cache)
  else
    let nq := normaliseSubjectQuery options.query options.aliases
    let scored := subjects.map fun s => (s, subjectPriority nq.2 nq.1 s)
    let highPriority := scored.filter (fun p => decide (0 < p.2))
    let lowPriority := scored.filter (fun p => decide (p.2 = 0))
    let sortedHigh := sortLe (fun a b => decide (b.2 - a.2 ≤ 0)) highPriority
    let fuzzy := subjectFuzzyStage fs now lowPriority nq.1 cache
    ((sortedHigh.map Prod.fst ++ fuzzy.1).take limit, fuzzy.2)

/-!
Student search.
-/

/-- Student record from `search.ts`. -/
structure Student where
  name : Str
  school : Str
  subjects : List (Str × Int)
  year : Option Int := none
deriving DecidableEq

/-- studentMatchesQuery from `search.ts`. -/
def studentMatchesQuery (student : Student) (query : Str) : Bool :=
  let nameLower := toLowerStr student.name
  let schoolLower := toLowerStr student.school
  let queryLower := toLowerStr query
  if strIncludes nameLower queryLower || strIncludes schoolLower queryLower then
    true
  else if student.subjects.any
      (fun s => strIncludes (toLowerStr s.1) queryLower) then
    true
  else
    let queryWords := (splitWs queryLower).filter (fun w => decide (0 < w.length))
    if 1 < queryWords.length then
      let nameWords :=
        (splitWsComma nameLower).filter (fun w => decide (0 < w.length))
      let schoolWords :=
        (splitWsComma schoolLower).filter (fun w => decide (0 < w.length))
      queryWords.all fun qw =>
        nameWords.any (fun nw => strIncludes nw qw) ||
        schoolWords.any (fun sw => strIncludes sw qw) ||
        student.subjects.any (fun s => strIncludes (toLowerStr s.1) qw)
    else false

/-- localeCompare, modelled as character-wise lexicographic comparison. -/
def localeCompare : Str → Str → Int
  | [], [] => 0
  | [], _ :: _ => -1
  | _ :: _, [] => 1
  | a :: xs, b :: ys =>
      if a < b then -1 else if b < a then 1 else localeCompare xs ys

/-- Comparator of `sortStudents` (`b.year !== a.year` compares the raw
optional values, then the difference of the `|| 0` defaults is returned). -/
def studentCmp (a b : Student) : Int :=
  if b.year ≠ a.year then (b.year.getD 0) - (a.year.getD 0)
  else localeCompare a.name b.name

/-- sortStudents from `search.ts`. -/
def sortStudents (students : List Student) : List Student :=
  sortLe (fun a b => decide (studentCmp a b ≤ 0)) students

/-!
Helper lemmas.
-/

theorem trimStr_nil : trimStr [] = [] := rfl

theorem ne_nil_of_trim_ne_nil {s : Str} (h : trimStr s ≠ []) : s ≠ [] :=
  fun hs => h (by rw [hs]; exact trimStr_nil)

theorem findEntry_mem {T : Type} {k : Nat × SOpts} {c : Cache T}
    {e : CachedSearch T} (h : findEntry k c = some e) : (k, e) ∈ c := by
  induction c with
  | nil => simp [findEntry] at h
  | cons kv rest ih =>
      obtain ⟨k1, e1⟩ := kv
      rw [findEntry] at h
      by_cases hk : k1 = k
      · rw [if_pos hk] at h
        subst hk
        cases h
        exact List.mem_cons_self _ _
      · rw [if_neg hk] at h
        exact List.mem_cons_of_mem _ (ih h)

theorem mem_setEntry {T : Type} {k : Nat × SOpts} {e : CachedSearch T}
    {c : Cache T} {kv : (Nat × SOpts) × CachedSearch T}
    (h : kv ∈ setEntry k e c) : kv = (k, e) ∨ kv ∈ c := by
  induction c with
  | nil => simp [setEntry] at h; simp [h]
  | cons kv' rest ih =>
      rw [setEntry] at h
      by_cases hk : kv'.1 = k
      · rw [if_pos hk] at h
        rcases List.mem_cons.mp h with h' | h'
        · exact Or.inl h'
        · exact Or.inr (List.mem_cons_of_mem _ h')
      · rw [if_neg hk] at h
        rcases List.mem_cons.mp h with h' | h'
        · exact Or.inr (h' ▸ List.mem_cons_self _ _)
        · rcases ih h' with h'' | h''
          · exact Or.inl h''
          · exact Or.inr (List.mem_cons_of_mem _ h'')

theorem findEntry_setEntry_self {T : Type} (k : Nat × SOpts)
    (e : CachedSearch T) (c : Cache T) :
    findEntry k (setEntry k e c) = some e := by
  induction c with
  | nil => simp [setEntry, findEntry]
  | cons kv rest ih =>
      rw [setEntry]
      by_cases hk : kv.1 = k
      · rw [if_pos hk, findEntry, if_pos rfl]
      · rw [if_neg hk, findEntry, if_neg hk]
        exact ih

/-!
Claim C10.
-/

/-- Claim C10: `studentMatchesQuery` with the empty query string returns
true for every student: the empty string is a substring of every name, so
an empty query means "match everything" at this predicate. -/
theorem studentMatchesQuery_empty (student : Student) :
    studentMatchesQuery student [] = true := by
  simp [studentMatchesQuery, toLowerStr]

/-!
Claim C5.
-/

/-- Claim C5: fuzzySearch short-circuits: an empty or whitespace-only query
returns the entire input collection unchanged, while a non-empty trimmed
query shorter than the configured `minMatchCharLength` yields the empty
list, never the full set. -/
theorem fuzzySearch_spec {T : Type}
    (fs : FuseInst T → Str → List (T × Option Rat)) (now : Nat)
    (data : List T) (query : Str) (options : SOpts) (cache : Cache T) :
    (trimStr query = [] → (fuzzySearch fs now data query options cache).1 = data)
    ∧ (∀ m : Nat, trimStr query ≠ [] → options.minMatchCharLength = some m →
        (trimStr query).length < m →
        (fuzzySearch fs now data query options cache).1 = []) := by
  constructor
  · intro h
    simp [fuzzySearch, h]
  · intro m hne hm hlt
    have hq : ¬ (query = [] ∨ trimStr query = []) := by
      rintro (rfl | h)
      · exact hne trimStr_nil
      · exact hne h
    have hm0 : m ≠ 0 := by
      have : 0 < (trimStr query).length := List.length_pos.mpr hne
      omega
    have h1 : minMatchOr1 options.minMatchCharLength = m := by
      rw [hm]
      simp [minMatchOr1, hm0]
    simp [fuzzySearch, hq, h1, hlt]

/-- Witness for C5 at concrete inputs: a whitespace-only query returns the
data, and a two-character query under `minMatchCharLength = 5` returns
nothing. -/
theorem fuzzySearch_spec_witness :
    (fuzzySearch (fun (_ : FuseInst Nat) _ => []) 0 [1, 2] " ".toList
        { keys := [] } []).1 = [1, 2]
    ∧ (fuzzySearch (fun (_ : FuseInst Nat) _ => []) 0 [1, 2] "ab".toList
        { keys := [], minMatchCharLength := some 5 } []).1 = [] := by
  constructor
  · exact (fuzzySearch_spec (fun _ _ => []) 0 [1, 2] " ".toList
      { keys := [] } []).1 (by decide)
  · exact (fuzzySearch_spec (fun _ _ => []) 0 [1, 2] "ab".toList
      { keys := [], minMatchCharLength := some 5 } []).2 5 (by decide) rfl
      (by decide)

/-!
Claim C7.
-/

/-- Options value used by the cache theorems. -/
def emptyOpts : SOpts := { keys := [] }

/-- Fuse instance cached by the C7 counterexample: same cache key as the
request (singleton data, same options) but different content. -/
def staleFuse : FuseInst Nat := { data := [7], opts := emptyOpts }

/-- Claim C7, counterexample: at an access exactly `CACHE_TTL` milliseconds
after an entry was stored, `createFuzzySearch` still reuses the cached
index, although `now - timestamp < CACHE_TTL` fails: reuse is governed by
`≤ CACHE_TTL`, not by the claimed strict `<`. -/
theorem createFuzzySearch_ttl_counterexample :
    (createFuzzySearch CACHE_TTL [42] emptyOpts
        ([((1, emptyOpts), { fuse := staleFuse, timestamp := 0 })] : Cache Nat)).1
      = staleFuse
    ∧ ¬ ((CACHE_TTL : Int) - (0 : Nat) < CACHE_TTL) := by
  constructor
  · decide
  · decide

/-- Claim C7 (amended): on each access the sweep keeps exactly the entries
aged at most `CACHE_TTL` (entries strictly older than five minutes are
dropped before the key is considered), and the returned index is either
freshly built from the supplied data or a cached entry aged at most
`CACHE_TTL` — an index strictly older than the TTL is never returned. -/
theorem createFuzzySearch_ttl {T : Type} (now : Nat) (data : List T)
    (options : SOpts) (cache : Cache T) :
    (∀ kv, kv ∈ clearExpiredCache now cache →
        ((now : Int) - kv.2.timestamp ≤ CACHE_TTL ∧ kv ∈ cache))
    ∧ (∀ kv, kv ∈ cache → (now : Int) - kv.2.timestamp ≤ CACHE_TTL →
        kv ∈ clearExpiredCache now cache)
    ∧ ((createFuzzySearch now data options cache).1
          = { data := data, opts := mergeOpts DEFAULT_SEARCH_OPTIONS options }
        ∨ ∃ kv, kv ∈ cache ∧ (createFuzzySearch now data options cache).1 = kv.2.fuse
            ∧ (now : Int) - kv.2.timestamp ≤ CACHE_TTL) := by
  refine ⟨?_, ?_, ?_⟩
  · intro kv hkv
    constructor
    · have := List.of_mem_filter hkv
      simp only [Bool.not_eq_true', decide_eq_false_iff_not, not_lt] at this
      omega
    · exact List.mem_of_mem_filter hkv
  · intro kv hkv hage
    refine List.mem_filter.mpr ⟨hkv, ?_⟩
    simp only [Bool.not_eq_true', decide_eq_false_iff_not, not_lt]
    omega
  · rw [createFuzzySearch]
    cases h : findEntry (getCacheKey data options) (clearExpiredCache now cache) with
    | none => left; rfl
    | some e =>
        right
        have hmem := findEntry_mem h
        have hkeep := List.of_mem_filter hmem
        simp only [Bool.not_eq_true', decide_eq_false_iff_not, not_lt] at hkeep
        refine ⟨(getCacheKey data options, e), List.mem_of_mem_filter hmem, rfl, ?_⟩
        show (now : Int) - e.timestamp ≤ CACHE_TTL
        omega

/-- Witness for C7 (amended) at a concrete cache state: a five-second-old
entry is kept by the sweep, and the returned index for a missing key is the
freshly built one. -/
theorem createFuzzySearch_ttl_witness :
    (((5 : Nat) : Int) -
        (({ fuse := staleFuse, timestamp := 0 } : CachedSearch Nat)).timestamp
        ≤ CACHE_TTL
      ∧ ((1, emptyOpts), ({ fuse := staleFuse, timestamp := 0 } : CachedSearch Nat))
          ∈ ([((1, emptyOpts), { fuse := staleFuse, timestamp := 0 })] : Cache Nat))
    ∧ ((createFuzzySearch 5 ([] : List Nat) emptyOpts
        ([((1, emptyOpts), { fuse := staleFuse, timestamp := 0 })] : Cache Nat)).1
        = { data := [], opts := mergeOpts DEFAULT_SEARCH_OPTIONS emptyOpts }
      ∨ ∃ kv, kv ∈ ([((1, emptyOpts), { fuse := staleFuse, timestamp := 0 })] : Cache Nat)
          ∧ (createFuzzySearch 5 ([] : List Nat) emptyOpts
              ([((1, emptyOpts), { fuse := staleFuse, timestamp := 0 })] : Cache Nat)).1
            = kv.2.fuse
          ∧ ((5 : Nat) : Int) - kv.2.timestamp ≤ CACHE_TTL) := by
  have h := createFuzzySearch_ttl (T := Nat) 5 []
    emptyOpts [((1, emptyOpts), { fuse := staleFuse, timestamp := 0 })]
  constructor
  · exact h.1 ((1, emptyOpts), { fuse := staleFuse, timestamp := 0 }) (by decide)
  · exact h.2.2

/-!
Claim C4.
-/

theorem keyExact_iff {tq : Str} {it : Item} {k : Str} :
    keyExact tq it k = true ↔
      ∃ v, it.get k = some v ∧ v ≠ [] ∧
        (toLowerStr v = tq ∨ strStartsWith (toLowerStr v) tq = true) := by
  cases h : it.get k with
  | none => simp [keyExact, h]
  | some v =>
      simp [keyExact, h, List.isEmpty_iff, Bool.and_eq_true, Bool.or_eq_true,
        beq_iff_eq, Bool.not_eq_true']

/-- Claim C4: hybridSearch partitions the data by the per-key exact/prefix
test (an item is an exact match iff some key in `exactMatchKeys` holds a
non-empty string value that case-insensitively equals or starts with the
trimmed lowercased query); when nothing matches exactly it degenerates to
pure fuzzy search over the entire data, and otherwise it returns the exact
bucket in input order followed by the fuzzy results over the non-exact
bucket with items equal to an exact match removed. -/
theorem hybridSearch_spec
    (fs : FuseInst Item → Str → List (Item × Option Rat)) (now : Nat)
    (data : List Item) (query : Str) (options : SOpts)
    (exactMatchKeys : List Str) (cache : Cache Item)
    (hq : trimStr query ≠ []) :
    (∀ it : Item,
        itemIsExact exactMatchKeys (toLowerStr (trimStr query)) it = true ↔
          ∃ k, k ∈ exactMatchKeys ∧ ∃ v, it.get k = some v ∧ v ≠ [] ∧
            (toLowerStr v = toLowerStr (trimStr query) ∨
              strStartsWith (toLowerStr v) (toLowerStr (trimStr query)) = true))
    ∧ (data.filter (itemIsExact exactMatchKeys (toLowerStr (trimStr query))) = [] →
        hybridSearch fs now data query options exactMatchKeys cache
          = fuzzySearch fs now data query options cache)
    ∧ (data.filter (itemIsExact exactMatchKeys (toLowerStr (trimStr query))) ≠ [] →
        (hybridSearch fs now data query options exactMatchKeys cache).1
          = data.filter (itemIsExact exactMatchKeys (toLowerStr (trimStr query)))
            ++ ((fuzzySearch fs now
                  (data.filter (fun it =>
                    !(itemIsExact exactMatchKeys (toLowerStr (trimStr query)) it)))
                  query options cache).1.filter
                (fun item =>
                  !((data.filter
                      (itemIsExact exactMatchKeys (toLowerStr (trimStr query)))).contains
                    item)))) := by
  have hqor : ¬ (query = [] ∨ trimStr query = []) := by
    rintro (rfl | h)
    · exact hq trimStr_nil
    · exact hq h
  refine ⟨?_, ?_, ?_⟩
  · intro it
    simp only [itemIsExact, List.any_eq_true, keyExact_iff]
  · intro hempty
    rw [hybridSearch, if_neg hqor]
    simp only [List.partition_eq_filter_filter, hempty, List.isEmpty_nil,
      if_pos]
  · intro hne
    rw [hybridSearch, if_neg hqor]
    have hie : ((data.filter
        (itemIsExact exactMatchKeys (toLowerStr (trimStr query)))).isEmpty = true)
        = False := by
      simp [List.isEmpty_iff, hne]
    simp only [List.partition_eq_filter_filter, hie, if_false, Function.comp]
    rfl

/-- Items used by the C4 witness. -/
def itemAlpha : Item := { id := 1, fields := [("name".toList, "Alpha".toList)] }

/-- Second item used by the C4 witness (no exact match for the query). -/
def itemBeta : Item := { id := 2, fields := [("name".toList, "Beta".toList)] }

/-- Witness for C4 at a concrete partition: "Alpha" matches the query "al"
exactly (by prefix), "Beta" goes to the fuzzy bucket. -/
theorem hybridSearch_spec_witness :
    (hybridSearch (fun _ _ => []) 0 [itemAlpha, itemBeta] "al".toList
        emptyOpts ["name".toList] []).1
      = [itemAlpha]
        ++ ((fuzzySearch (fun _ _ => []) 0 [itemBeta] "al".toList
              emptyOpts []).1.filter
            (fun item => !([itemAlpha].contains item))) := by
  have h := (hybridSearch_spec (fun _ _ => []) 0 [itemAlpha, itemBeta]
    "al".toList emptyOpts ["name".toList] [] (by decide)).2.2 (by decide)
  have e1 : [itemAlpha, itemBeta].filter
      (itemIsExact ["name".toList] (toLowerStr (trimStr "al".toList)))
      = [itemAlpha] := by decide
  have e2 : [itemAlpha, itemBeta].filter (fun it =>
      !(itemIsExact ["name".toList] (toLowerStr (trimStr "al".toList)) it))
      = [itemBeta] := by decide
  rw [h, e1, e2]

/-!
Claim C1.
-/

/-- Course with an unparsable rank, used by the C1 counterexample. -/
def unparsableCourse : Course :=
  { code := "X1".toList, name := "Course".toList, rank := "abc".toList,
    institution := "Inst".toList, campus := "C".toList }

/-- Claim C1, counterexample: for the non-sentinel unparsable rank "abc"
the enriched course carries `rankNum = NaN` (the raw `parseFloat` result),
not the claimed 0; the category is still `unknown`. -/
theorem enrichCourses_nan_counterexample :
    (enrichCourses [unparsableCourse] 90).map (fun e => e.rankNum) = [JSNum.nan]
    ∧ (enrichCourses [unparsableCourse] 90).map (fun e => e.category)
        = [Category.unknown]
    ∧ JSNum.nan ≠ JSNum.num 0 := by
  refine ⟨by decide, by decide, by decide⟩

/-- Claim C1 (amended): `enrichCourses` maps over the course list; for each
course the sentinel ranks "N/P", "L/N", "RC" give category `unknown` with
`rankNum = 0`; any other rank goes through `parseFloat`; an unparsable rank
gives category `unknown` with `rankNum = NaN` (not 0 as the claim stated); a
parsed finite rank `q` is classified `safe` when `q < atar - 5`, `reach`
when `q > atar + 5`, and `target` in every remaining case, both boundary
values `atar - 5` and `atar + 5` included. -/
theorem enrichCourses_spec (course : Course) (atar : Rat)
    (courses : List Course) :
    ((enrichCourses courses atar).length = courses.length)
    ∧ (∀ pre post, courses = pre ++ course :: post →
        enrichCourses courses atar
          = enrichCourses pre atar ++ enrichCourses [course] atar
            ++ enrichCourses post atar)
    ∧ (enrichCourses [course] atar = [enrichCourse atar course])
    ∧ ((enrichCourse atar course).searchText
        = course.institution ++ [' '] ++ course.name ++ [' '] ++ course.code)
    ∧ ((course.rank = "N/P".toList ∨ course.rank = "L/N".toList ∨
          course.rank = "RC".toList) →
        (enrichCourse atar course).category = Category.unknown
        ∧ (enrichCourse atar course).rankNum = JSNum.num 0)
    ∧ (¬ (course.rank = "N/P".toList ∨ course.rank = "L/N".toList ∨
          course.rank = "RC".toList) →
        (parseFloat course.rank = JSNum.nan →
          (enrichCourse atar course).category = Category.unknown
          ∧ (enrichCourse atar course).rankNum = JSNum.nan)
        ∧ (∀ q : Rat, parseFloat course.rank = JSNum.num q →
            (enrichCourse atar course).rankNum = JSNum.num q
            ∧ (q < atar - 5 →
                (enrichCourse atar course).category = Category.safe)
            ∧ (atar + 5 < q →
                (enrichCourse atar course).category = Category.reach)
            ∧ (atar - 5 ≤ q → q ≤ atar + 5 →
                (enrichCourse atar course).category = Category.target))) := by
  refine ⟨by simp [enrichCourses], ?_, rfl, rfl, ?_, ?_⟩
  · intro pre post hsplit
    subst hsplit
    simp [enrichCourses]
  · intro hsent
    constructor
    · simp only [enrichCourse]
      rw [if_pos hsent]
    · simp only [enrichCourse]
      rw [if_pos hsent]
  · intro hns
    constructor
    · intro hnan
      constructor
      · simp only [enrichCourse]
        rw [if_neg hns, hnan]
        simp [JSNum.isNaN]
      · simp only [enrichCourse]
        rw [if_neg hns, hnan]
        simp [JSNum.isNaN]
    · intro q hq
      constructor
      · simp only [enrichCourse]
        rw [if_neg hns, hq]
        simp [JSNum.isNaN]
      refine ⟨?_, ?_, ?_⟩
      · intro hlt
        simp only [enrichCourse]
        rw [if_neg hns, hq]
        simp [JSNum.isNaN, JSNum.ltQ, hlt]
      · intro hgt
        have hnlt : ¬ (q < atar - 5) := by linarith
        simp only [enrichCourse]
        rw [if_neg hns, hq]
        simp [JSNum.isNaN, JSNum.ltQ, JSNum.gtQ, hnlt, hgt]
      · intro hge hle
        have hnlt : ¬ (q < atar - 5) := by linarith
        have hngt : ¬ (atar + 5 < q) := by linarith
        simp only [enrichCourse]
        rw [if_neg hns, hq]
        simp [JSNum.isNaN, JSNum.ltQ, JSNum.gtQ, hnlt, hngt]

/-- Course sitting exactly on the `atar - 5` boundary for an ATAR of 90,
used by the C1 witness. -/
def boundaryCourse : Course :=
  { code := "B1".toList, name := "Bio".toList, rank := "85".toList,
    institution := "Inst".toList, campus := "C".toList }

theorem ratBound1 : (90 : Rat) - 5 ≤ 85 := by norm_num

theorem ratBound2 : (85 : Rat) ≤ 90 + 5 := by norm_num

/-- Witness for C1 (amended): rank "85" at ATAR 90 sits exactly on the
`atar - 5` boundary and is classified `target` with `rankNum = 85`. -/
theorem enrichCourses_spec_witness :
    (enrichCourse 90 boundaryCourse).rankNum = JSNum.num 85
    ∧ (enrichCourse 90 boundaryCourse).category = Category.target := by
  have h := ((enrichCourses_spec boundaryCourse 90 []).2.2.2.2.2
    (by decide)).2 85 (by decide)
  exact ⟨h.1, h.2.2.2 ratBound1 ratBound2⟩

/-!
Claim C3.
-/

/-- Claim C3: for a present search term with non-empty trim, `searchCourses`
uses the word-based result exactly when that result is non-empty and the
query has at least two qualifying words or the result has at least three
items; otherwise it discards the word-based result and uses the fuzzy
fallback built over all enriched courses (through the cache); and a term
with zero qualifying words makes the word-based search skip filtering and
return all enriched courses. -/
theorem searchCourses_strategy
    (fs : FuseInst EnrichedCourse → Str → List (EnrichedCourse × Option Rat))
    (now : Nat) (courses : List Course) (t : Str) (cat : Option CatFilter)
    (atar : Option Rat) (lim : Option Nat) (cache : Cache EnrichedCourse)
    (ht : trimStr t ≠ []) :
    ((wordBasedSearch (enrichCourses courses (atar.getD 0)) (trimStr t) ≠ [] ∧
        (1 < ((splitWs (trimStr t)).filter (fun w => decide (2 ≤ w.length))).length
          ∨ 3 ≤ (wordBasedSearch (enrichCourses courses (atar.getD 0))
              (trimStr t)).length) →
      (searchCourses fs now courses
          { searchTerm := some t, category := cat, atar := atar, limit := lim }
          cache).1
        = applyLimit lim (applyCategoryFilter cat
            (wordBasedSearch (enrichCourses courses (atar.getD 0)) (trimStr t))))
    ∧ (¬ (wordBasedSearch (enrichCourses courses (atar.getD 0)) (trimStr t) ≠ [] ∧
        (1 < ((splitWs (trimStr t)).filter (fun w => decide (2 ≤ w.length))).length
          ∨ 3 ≤ (wordBasedSearch (enrichCourses courses (atar.getD 0))
              (trimStr t)).length)) →
      (searchCourses fs now courses
          { searchTerm := some t, category := cat, atar := atar, limit := lim }
          cache).1
        = applyLimit lim (applyCategoryFilter cat
            ((fs (createFuzzySearch now (enrichCourses courses (atar.getD 0))
                courseFuseOpts cache).1 (trimStr t)).map Prod.fst)))
    ∧ (qualifyingWords (trimStr t) = [] →
        wordBasedSearch (enrichCourses courses (atar.getD 0)) (trimStr t)
          = enrichCourses courses (atar.getD 0))) := by
  have htne : t ≠ [] := ne_nil_of_trim_ne_nil ht
  have htt : searchTermTruthy (some t) = true := by
    simp [searchTermTruthy, List.isEmpty_iff, htne]
  refine ⟨?_, ?_, ?_⟩
  · intro hcond
    have hc2 : ¬ (wordBasedSearch (enrichCourses courses (atar.getD 0))
        (trimStr t)).isEmpty = true
        ∧ (1 < ((splitWs (trimStr t)).filter
              (fun w => decide (2 ≤ w.length))).length
          ∨ 3 ≤ (wordBasedSearch (enrichCourses courses (atar.getD 0))
              (trimStr t)).length) := by
      refine ⟨?_, hcond.2⟩
      simp only [List.isEmpty_iff]
      exact hcond.1
    simp only [searchCourses, courseSearchStage, Option.getD_some]
    split_ifs with h1
    · rfl
    · exact absurd ⟨htt, ht⟩ h1
  · intro hcond
    have hc2 : ¬ (¬ (wordBasedSearch (enrichCourses courses (atar.getD 0))
        (trimStr t)).isEmpty = true
        ∧ (1 < ((splitWs (trimStr t)).filter
              (fun w => decide (2 ≤ w.length))).length
          ∨ 3 ≤ (wordBasedSearch (enrichCourses courses (atar.getD 0))
              (trimStr t)).length)) := by
      simp only [List.isEmpty_iff]
      exact fun hc => hcond ⟨hc.1, hc.2⟩
    simp only [searchCourses, courseSearchStage, Option.getD_some]
    split_ifs with h1
    · rfl
    · exact absurd ⟨htt, ht⟩ h1
  · intro h
    simp [wordBasedSearch, h]

/-- Course used by the C3 witness. -/
def monashCourse : Course :=
  { code := "M1".toList, name := "Bachelor of Medicine".toList,
    rank := "95".toList, institution := "Monash University".toList,
    campus := "Clayton".toList }

/-- Witness for C3 at a concrete multi-word query: the word-based result is
used as-is. -/
theorem searchCourses_strategy_witness :
    (searchCourses (fun _ _ => []) 0 [monashCourse]
        { searchTerm := some "monash medicine".toList } []).1
      = applyLimit none (applyCategoryFilter none
          (wordBasedSearch (enrichCourses [monashCourse] 0)
            (trimStr "monash medicine".toList))) := by
  exact (searchCourses_strategy (fun _ _ => []) 0 [monashCourse]
    "monash medicine".toList none none none [] (by decide)).1 (by decide)

/-!
Claim C2.
-/

/-- Sorting a list scored by `g` with the descending JavaScript comparator
`(a, b) => b.score - a.score` and projecting the items back out: the result
is a permutation of the input, ordered by non-increasing score, and stable
(the sublist at each fixed score value is the input's). -/
theorem sortScored_spec {β : Type} (l : List β) (g : β → Int) :
    (((sortLe (fun a b : β × Int => decide (b.2 - a.2 ≤ 0))
        (l.map (fun x => (x, g x)))).map Prod.fst).Perm l)
    ∧ ((sortLe (fun a b : β × Int => decide (b.2 - a.2 ≤ 0))
        (l.map (fun x => (x, g x)))).map Prod.fst).Pairwise
        (fun a b => g b ≤ g a)
    ∧ ∀ s : Int,
        ((sortLe (fun a b : β × Int => decide (b.2 - a.2 ≤ 0))
          (l.map (fun x => (x, g x)))).map Prod.fst).filter
          (fun x => decide (g x = s))
        = l.filter (fun x => decide (g x = s)) := by
  have hsnd : ∀ p ∈ sortLe (fun a b : β × Int => decide (b.2 - a.2 ≤ 0))
      (l.map (fun x => (x, g x))), p.2 = g p.1 := by
    intro p hp
    rcases List.mem_map.mp (mem_sortLe.mp hp) with ⟨c, hc, rfl⟩
    rfl
  refine ⟨?_, ?_, ?_⟩
  · have h1 := (perm_sortLe (fun a b : β × Int => decide (b.2 - a.2 ≤ 0))
      (l.map (fun x => (x, g x)))).map Prod.fst
    have h2 : (l.map (fun x => (x, g x))).map Prod.fst = l := by
      rw [List.map_map]
      exact List.map_id l
    rw [h2] at h1
    exact h1
  · have htot : ∀ a b : β × Int,
        decide (b.2 - a.2 ≤ 0) = true ∨ decide (a.2 - b.2 ≤ 0) = true := by
      intro a b
      simp only [decide_eq_true_eq]
      omega
    have htrans : ∀ a b c : β × Int, decide (b.2 - a.2 ≤ 0) = true →
        decide (c.2 - b.2 ≤ 0) = true → decide (c.2 - a.2 ≤ 0) = true := by
      intro a b c
      simp only [decide_eq_true_eq]
      omega
    have hp := pairwise_sortLe htot htrans (l.map (fun x => (x, g x)))
    have hp2 : (sortLe (fun a b : β × Int => decide (b.2 - a.2 ≤ 0))
        (l.map (fun x => (x, g x)))).Pairwise
        (fun p q => g q.1 ≤ g p.1) := by
      refine hp.imp_of_mem ?_
      intro p q hpm hqm hle
      rw [← hsnd p hpm, ← hsnd q hqm]
      simpa using hle
    exact List.pairwise_map.mpr hp2
  · intro s
    have hle : ∀ a b : β × Int,
        decide (b.2 - a.2 ≤ 0) = true ↔ Prod.snd b ≤ Prod.snd a := by
      intro a b
      simp only [decide_eq_true_eq]
      omega
    calc ((sortLe (fun a b : β × Int => decide (b.2 - a.2 ≤ 0))
          (l.map (fun x => (x, g x)))).map Prod.fst).filter
          (fun x => decide (g x = s))
        = ((sortLe (fun a b : β × Int => decide (b.2 - a.2 ≤ 0))
            (l.map (fun x => (x, g x)))).filter
            ((fun x => decide (g x = s)) ∘ Prod.fst)).map Prod.fst :=
          List.filter_map _ _
      _ = ((sortLe (fun a b : β × Int => decide (b.2 - a.2 ≤ 0))
            (l.map (fun x => (x, g x)))).filter
            (fun p => decide (p.2 = s))).map Prod.fst := by
          congr 1
          refine List.filter_congr ?_
          intro p hp
          show decide (g p.1 = s) = decide (p.2 = s)
          rw [hsnd p hp]
      _ = ((l.map (fun x => (x, g x))).filter
            (fun p => decide (p.2 = s))).map Prod.fst := by
          rw [filter_sortLe_key hle]
      _ = ((l.filter ((fun p : β × Int => decide (p.2 = s))
            ∘ (fun x => (x, g x)))).map (fun x => (x, g x))).map Prod.fst := by
          rw [List.filter_map]
      _ = l.filter (fun x => decide (g x = s)) := by
          rw [List.map_map]
          rw [show (Prod.fst ∘ fun x : β => (x, g x)) = id from rfl, List.map_id]
          rfl

/-- Unconditional characterisation of `wordBasedSearch` for a term with at
least one qualifying word: the empty-match shortcut agrees with sorting the
scored matches. -/
theorem wordBasedSearch_eq (courses : List EnrichedCourse) (searchTerm : Str)
    (h : qualifyingWords searchTerm ≠ []) :
    wordBasedSearch courses searchTerm
      = (sortLe (fun a b : EnrichedCourse × Int => decide (b.2 - a.2 ≤ 0))
          ((courses.filter (fun course => (qualifyingWords searchTerm).all
            (fun word => strIncludes (toLowerStr course.searchText) word))).map
            (fun course =>
              (course, courseScore (qualifyingWords searchTerm) course)))).map
          Prod.fst := by
  have hne : ¬ (qualifyingWords searchTerm).isEmpty = true := by
    simp only [List.isEmpty_iff]
    exact h
  simp only [wordBasedSearch]
  rw [if_neg hne]
  split_ifs with h2
  · have h3 : courses.filter (fun course => (qualifyingWords searchTerm).all
        (fun word => strIncludes (toLowerStr course.searchText) word)) = [] := by
      simpa [List.isEmpty_iff] using h2
    rw [h3]
    rfl
  · rfl

/-- Claim C2: for a search term with at least one qualifying word,
`wordBasedSearch` keeps exactly the courses whose lowercase searchText
contains every qualifying word (count included), orders them by
non-increasing total score — the per-word sum of the first matching tier
computed by `courseScore` — and resolves ties by keeping input order (the
sublist at each fixed score value is unchanged). -/
theorem wordBasedSearch_spec (courses : List EnrichedCourse) (searchTerm : Str)
    (h : qualifyingWords searchTerm ≠ []) :
    ((wordBasedSearch courses searchTerm).Perm
        (courses.filter (fun course => (qualifyingWords searchTerm).all
          (fun word => strIncludes (toLowerStr course.searchText) word))))
    ∧ (wordBasedSearch courses searchTerm).Pairwise (fun a b =>
        courseScore (qualifyingWords searchTerm) b
          ≤ courseScore (qualifyingWords searchTerm) a)
    ∧ ∀ s : Int,
        (wordBasedSearch courses searchTerm).filter
            (fun c => decide (courseScore (qualifyingWords searchTerm) c = s))
          = (courses.filter (fun course => (qualifyingWords searchTerm).all
              (fun word => strIncludes (toLowerStr course.searchText) word))).filter
              (fun c => decide (courseScore (qualifyingWords searchTerm) c = s)) := by
  rw [wordBasedSearch_eq courses searchTerm h]
  exact sortScored_spec
    (courses.filter (fun course => (qualifyingWords searchTerm).all
      (fun word => strIncludes (toLowerStr course.searchText) word)))
    (courseScore (qualifyingWords searchTerm))

/-- Enriched course used by the C2 witness. -/
def monashEnriched : EnrichedCourse :=
  { code := "M1".toList, name := "Bachelor of Medicine".toList,
    rank := "95".toList, institution := "Monash University".toList,
    campus := "Clayton".toList, category := Category.reach,
    rankNum := JSNum.num 95,
    searchText := "Monash University Bachelor of Medicine M1".toList }

/-- Witness for C2 at the query "monash medicine" over a singleton list. -/
theorem wordBasedSearch_spec_witness :
    qualifyingWords "monash medicine".toList ≠ []
    ∧ (((wordBasedSearch [monashEnriched] "monash medicine".toList).Perm
        ([monashEnriched].filter (fun course =>
          (qualifyingWords "monash medicine".toList).all
            (fun word => strIncludes (toLowerStr course.searchText) word))))
      ∧ (wordBasedSearch [monashEnriched] "monash medicine".toList).Pairwise
          (fun a b => courseScore (qualifyingWords "monash medicine".toList) b
            ≤ courseScore (qualifyingWords "monash medicine".toList) a)
      ∧ ∀ s : Int,
          (wordBasedSearch [monashEnriched] "monash medicine".toList).filter
              (fun c => decide
                (courseScore (qualifyingWords "monash medicine".toList) c = s))
            = ([monashEnriched].filter (fun course =>
                (qualifyingWords "monash medicine".toList).all
                  (fun word =>
                    strIncludes (toLowerStr course.searchText) word))).filter
                (fun c => decide
                  (courseScore (qualifyingWords "monash medicine".toList) c
                    = s))) :=
  ⟨by decide,
    wordBasedSearch_spec [monashEnriched] "monash medicine".toList (by decide)⟩

/-!
Claim C6.
-/

theorem createFuzzySearch_of_miss {T : Type} {now : Nat} {data : List T}
    {options : SOpts} {cache : Cache T}
    (h : findEntry (getCacheKey data options) (clearExpiredCache now cache)
      = none) :
    (createFuzzySearch now data options cache).1
      = { data := data, opts := mergeOpts DEFAULT_SEARCH_OPTIONS options } := by
  rw [createFuzzySearch]
  rw [h]

/-- Subject used by the C6 alias example. -/
def mathMethods : Subject :=
  { code := "MA07".toList, name := "Mathematical Methods".toList }

/-- Subject that only fuzzy-matches the C6 alias example query. -/
def generalMaths : Subject :=
  { code := "MA05".toList, name := "General Mathematics".toList }

/-- Claim C6: for a non-empty query, `searchSubjects` returns a prefix (cut
at the limit) of the priority tier followed by the fuzzy tier, where the
priority tier consists exactly of the subjects with positive additive
priority (`subjectPriority` sums every applicable alias-target and query
bonus), sorted by non-increasing priority with ties in input order, and
where every fuzzy-tier subject has priority 0 — so positive-priority
subjects always precede priority-0 subjects.  The fuse index over the
zero-priority bucket is assumed freshly built (`hfresh`: no same-key cache
entry survives the sweep), which rules out the documented cache-key-aliasing
staleness.  In particular, under `aliases = {"methods": ["Mathematical
Methods"]}` and query "methods", the subject named exactly "Mathematical
Methods" heads the result, ahead of "General Mathematics". -/
theorem searchSubjects_spec
    (fs : FuseInst Subject → Str → List (Subject × Option Rat))
    (now : Nat) (subjects : List Subject) (query : Str)
    (aliases : Option (List (Str × List Str))) (lim : Option Nat)
    (cache : Cache Subject)
    (hfs : ∀ inst q p, p ∈ fs inst q → p.1 ∈ inst.data)
    (hq : trimStr query ≠ [])
    (hfresh : findEntry
      (getCacheKey
        (((subjects.map (fun s => (s, subjectPriority
            (normaliseSubjectQuery query aliases).2
            (normaliseSubjectQuery query aliases).1 s))).filter
          (fun p => decide (p.2 = 0))).map Prod.fst) subjectFuseOpts)
      (clearExpiredCache now cache) = none) :
    (∃ hp fz : List Subject,
      (searchSubjects fs now subjects
          { query := query, aliases := aliases, limit := lim } cache).1
        = (hp ++ fz).take (lim.getD 50)
      ∧ hp.Perm (subjects.filter (fun s => decide (0 < subjectPriority
          (normaliseSubjectQuery query aliases).2
          (normaliseSubjectQuery query aliases).1 s)))
      ∧ hp.Pairwise (fun a b =>
          subjectPriority (normaliseSubjectQuery query aliases).2
            (normaliseSubjectQuery query aliases).1 b
          ≤ subjectPriority (normaliseSubjectQuery query aliases).2
            (normaliseSubjectQuery query aliases).1 a)
      ∧ (∀ p : Int, hp.filter (fun s => decide (subjectPriority
            (normaliseSubjectQuery query aliases).2
            (normaliseSubjectQuery query aliases).1 s = p))
          = (subjects.filter (fun s => decide (0 < subjectPriority
              (normaliseSubjectQuery query aliases).2
              (normaliseSubjectQuery query aliases).1 s))).filter
              (fun s => decide (subjectPriority
                (normaliseSubjectQuery query aliases).2
                (normaliseSubjectQuery query aliases).1 s = p)))
      ∧ (∀ x ∈ fz, subjectPriority (normaliseSubjectQuery query aliases).2
          (normaliseSubjectQuery query aliases).1 x = 0))
    ∧ (searchSubjects fs now [mathMethods, generalMaths]
        { query := "methods".toList,
          aliases := some [("methods".toList, ["Mathematical Methods".toList])],
          limit := none } cache).1.head? = some mathMethods := by
  constructor
  · have hqor : ¬ (query = [] ∨ trimStr query = []) := by
      rintro (rfl | h)
      · exact hq trimStr_nil
      · exact hq h
    refine ⟨(sortLe (fun a b : Subject × Int => decide (b.2 - a.2 ≤ 0))
        ((subjects.map (fun s => (s, subjectPriority
          (normaliseSubjectQuery query aliases).2
          (normaliseSubjectQuery query aliases).1 s))).filter
          (fun p => decide (0 < p.2)))).map Prod.fst,
      (subjectFuzzyStage fs now
        ((subjects.map (fun s => (s, subjectPriority
          (normaliseSubjectQuery query aliases).2
          (normaliseSubjectQuery query aliases).1 s))).filter
          (fun p => decide (p.2 = 0)))
        (normaliseSubjectQuery query aliases).1 cache).1, ?_, ?_, ?_, ?_, ?_⟩
    · simp only [searchSubjects]
      rw [if_neg hqor]
    · have hfm : (subjects.map (fun s => (s, subjectPriority
          (normaliseSubjectQuery query aliases).2
          (normaliseSubjectQuery query aliases).1 s))).filter
          (fun p => decide (0 < p.2))
          = (subjects.filter (fun s => decide (0 < subjectPriority
              (normaliseSubjectQuery query aliases).2
              (normaliseSubjectQuery query aliases).1 s))).map
            (fun s => (s, subjectPriority
              (normaliseSubjectQuery query aliases).2
              (normaliseSubjectQuery query aliases).1 s)) := by
        rw [List.filter_map]
        rfl
      rw [hfm]
      exact (sortScored_spec _ _).1
    · have hfm : (subjects.map (fun s => (s, subjectPriority
          (normaliseSubjectQuery query aliases).2
          (normaliseSubjectQuery query aliases).1 s))).filter
          (fun p => decide (0 < p.2))
          = (subjects.filter (fun s => decide (0 < subjectPriority
              (normaliseSubjectQuery query aliases).2
              (normaliseSubjectQuery query aliases).1 s))).map
            (fun s => (s, subjectPriority
              (normaliseSubjectQuery query aliases).2
              (normaliseSubjectQuery query aliases).1 s)) := by
        rw [List.filter_map]
        rfl
      rw [hfm]
      exact (sortScored_spec _ _).2.1
    · intro p
      have hfm : (subjects.map (fun s => (s, subjectPriority
          (normaliseSubjectQuery query aliases).2
          (normaliseSubjectQuery query aliases).1 s))).filter
          (fun q2 => decide (0 < q2.2))
          = (subjects.filter (fun s => decide (0 < subjectPriority
              (normaliseSubjectQuery query aliases).2
              (normaliseSubjectQuery query aliases).1 s))).map
            (fun s => (s, subjectPriority
              (normaliseSubjectQuery query aliases).2
              (normaliseSubjectQuery query aliases).1 s)) := by
        rw [List.filter_map]
        rfl
      rw [hfm]
      exact (sortScored_spec _ _).2.2 p
    · intro x hx
      simp only [subjectFuzzyStage] at hx
      by_cases hlow : ¬ ((subjects.map (fun s => (s, subjectPriority
          (normaliseSubjectQuery query aliases).2
          (normaliseSubjectQuery query aliases).1 s))).filter
          (fun p => decide (p.2 = 0))).isEmpty = true
      · rw [if_pos hlow] at hx
        rcases List.mem_map.mp hx with ⟨pr, hpr, rfl⟩
        have hpr2 := mem_sortLe.mp hpr
        have hdata := hfs _ _ _ hpr2
        rw [createFuzzySearch_of_miss hfresh] at hdata
        rcases List.mem_map.mp hdata with ⟨pr2, hpr2mem, hfst⟩
        rcases List.mem_filter.mp hpr2mem with ⟨hmem, hzero⟩
        rcases List.mem_map.mp hmem with ⟨s, hs, rfl⟩
        simp only [decide_eq_true_eq] at hzero
        rw [← hfst]
        exact hzero
      · rw [if_neg hlow] at hx
        simp at hx
  · have hnq : normaliseSubjectQuery "methods".toList
        (some [("methods".toList, ["Mathematical Methods".toList])])
        = ("methods".toList, ["Mathematical Methods".toList]) := by decide
    simp only [searchSubjects]
    rw [if_neg (by decide)]
    rw [hnq]
    have hsc : [mathMethods, generalMaths].map (fun s => (s, subjectPriority
        ("methods".toList, ["Mathematical Methods".toList]).2
        ("methods".toList, ["Mathematical Methods".toList]).1 s))
        = [(mathMethods, 150), (generalMaths, 0)] := by decide
    rw [hsc]
    have hhigh : [(mathMethods, (150 : Int)), (generalMaths, 0)].filter
        (fun p => decide (0 < p.2)) = [(mathMethods, 150)] := by decide
    have hlow : [(mathMethods, (150 : Int)), (generalMaths, 0)].filter
        (fun p => decide (p.2 = 0)) = [(generalMaths, 0)] := by decide
    rw [hhigh, hlow]
    rfl

/-- Witness for C6: the alias example evaluated with an empty cache and a
trivial fuse backend. -/
theorem searchSubjects_spec_witness :
    (searchSubjects (fun _ _ => []) 0 [mathMethods, generalMaths]
        { query := "methods".toList,
          aliases := some [("methods".toList, ["Mathematical Methods".toList])],
          limit := none } []).1.head? = some mathMethods :=
  (searchSubjects_spec (fun _ _ => []) 0 [mathMethods, generalMaths]
    "methods".toList
    (some [("methods".toList, ["Mathematical Methods".toList])]) none []
    (fun _ _ _ h => absurd h (List.not_mem_nil _)) (by decide) rfl).2

/-!
Claim C8.
-/

theorem localeCompare_neg (x y : Str) : localeCompare x y = - localeCompare y x := by
  induction x generalizing y with
  | nil => cases y <;> simp [localeCompare]
  | cons a xs ih =>
      cases y with
      | nil => simp [localeCompare]
      | cons b ys =>
          rw [localeCompare, localeCompare]
          rcases lt_trichotomy a b with h | h | h
          · rw [if_pos h, if_neg (lt_asymm h), if_pos h]
          · rw [if_neg (by simp [h]), if_neg (by simp [h]),
              if_neg (by simp [h]), if_neg (by simp [h])]
            exact ih ys
          · rw [if_neg (lt_asymm h), if_pos h, if_pos h]
            norm_num

theorem localeCompare_trans {x y z : Str} (h1 : localeCompare x y ≤ 0)
    (h2 : localeCompare y z ≤ 0) : localeCompare x z ≤ 0 := by
  induction x generalizing y z with
  | nil => cases z <;> simp [localeCompare]
  | cons a xs ih =>
      cases y with
      | nil => simp [localeCompare] at h1
      | cons b ys =>
          cases z with
          | nil => simp [localeCompare] at h2
          | cons c zs =>
              rw [localeCompare] at h1 h2 ⊢
              rcases lt_trichotomy a b with hab | hab | hab
              · rcases lt_trichotomy b c with hbc | hbc | hbc
                · rw [if_pos (lt_trans hab hbc)]
                  norm_num
                · rw [if_pos (hbc ▸ hab)]
                  norm_num
                · rw [if_neg (lt_asymm hbc), if_pos hbc] at h2
                  norm_num at h2
              · subst hab
                rw [if_neg (lt_irrefl a), if_neg (lt_irrefl a)] at h1
                rcases lt_trichotomy a c with hac | hac | hac
                · rw [if_pos hac]
                  norm_num
                · subst hac
                  rw [if_neg (lt_irrefl a), if_neg (lt_irrefl a)] at h2 ⊢
                  exact ih h1 h2
                · rw [if_neg (lt_asymm hac), if_pos hac] at h2
                  norm_num at h2
              · rw [if_neg (lt_asymm hab), if_pos hab] at h1
                norm_num at h1

theorem insertLe_congr {le1 le2 : α → α → Bool} {x : α} {l : List α}
    (h : ∀ b ∈ l, le1 x b = le2 x b) : insertLe le1 x l = insertLe le2 x l := by
  induction l with
  | nil => rfl
  | cons y ys ih =>
      rw [insertLe, insertLe, h y (List.mem_cons_self y ys)]
      by_cases h2 : le2 x y = true
      · rw [if_pos h2, if_pos h2]
      · rw [if_neg h2, if_neg h2,
          ih (fun b hb => h b (List.mem_cons_of_mem _ hb))]

theorem sortLe_congr {le1 le2 : α → α → Bool} {l : List α}
    (h : ∀ a ∈ l, ∀ b ∈ l, le1 a b = le2 a b) :
    sortLe le1 l = sortLe le2 l := by
  induction l with
  | nil => rfl
  | cons x xs ih =>
      rw [sortLe, sortLe,
        ih (fun a ha b hb =>
          h a (List.mem_cons_of_mem _ ha) b (List.mem_cons_of_mem _ hb))]
      refine insertLe_congr ?_
      intro b hb
      exact h x (List.mem_cons_self _ _) b
        (List.mem_cons_of_mem _ (mem_sortLe.mp hb))

/-- Student with an explicit year 0, used by the C8 counterexample. -/
def studentZed : Student :=
  { name := "Zed".toList, school := [], subjects := [], year := some 0 }

/-- Student with a missing year, used by the C8 counterexample. -/
def studentAnn : Student :=
  { name := "Ann".toList, school := [], subjects := [], year := none }

/-- Claim C8, counterexample: a student with explicit year 0 and one with a
missing year have equal effective years, yet `sortStudents` keeps them in
input order ("Zed" before "Ann") instead of sorting ascending by name: the
raw-value comparison `b.year !== a.year` takes the subtraction branch, which
returns 0 without the name tiebreak. -/
theorem sortStudents_counterexample :
    sortStudents [studentZed, studentAnn] = [studentZed, studentAnn]
    ∧ studentZed.year.getD 0 = studentAnn.year.getD 0
    ∧ localeCompare studentAnn.name studentZed.name < 0 := by
  refine ⟨by decide, by decide, by decide⟩

/-- Lexicographic comparator stated by the spec for `sortStudents`:
descending effective year, then name order.  It coincides with the code's
`studentCmp` on every pair except a missing year against an explicit 0. -/
def studentLexCmp (a b : Student) : Int :=
  if a.year.getD 0 ≠ b.year.getD 0 then (b.year.getD 0) - (a.year.getD 0)
  else localeCompare a.name b.name

theorem studentLexCmp_le_iff (a b : Student) :
    studentLexCmp a b ≤ 0 ↔
      (b.year.getD 0 < a.year.getD 0
        ∨ (a.year.getD 0 = b.year.getD 0
            ∧ localeCompare a.name b.name ≤ 0)) := by
  rw [studentLexCmp]
  by_cases h : a.year.getD 0 ≠ b.year.getD 0
  · rw [if_pos h]
    constructor
    · intro h2
      left
      omega
    · intro h2
      rcases h2 with h2 | ⟨h2, _⟩
      · omega
      · exact absurd h2 h
  · rw [if_neg h]
    have heq : a.year.getD 0 = b.year.getD 0 := not_ne_iff.mp h
    constructor
    · intro h2
      right
      exact ⟨heq, h2⟩
    · intro h2
      rcases h2 with h2 | ⟨_, h2⟩
      · omega
      · exact h2

theorem studentLexCmp_total (a b : Student) :
    decide (studentLexCmp a b ≤ 0) = true
      ∨ decide (studentLexCmp b a ≤ 0) = true := by
  simp only [decide_eq_true_eq, studentLexCmp_le_iff]
  rcases lt_trichotomy (a.year.getD 0) (b.year.getD 0) with h | h | h
  · right
    left
    omega
  · by_cases h2 : localeCompare a.name b.name ≤ 0
    · left
      right
      exact ⟨h, h2⟩
    · right
      right
      refine ⟨h.symm, ?_⟩
      have h3 := localeCompare_neg b.name a.name
      omega
  · left
    left
    omega

theorem studentLexCmp_trans (a b c : Student)
    (h1 : decide (studentLexCmp a b ≤ 0) = true)
    (h2 : decide (studentLexCmp b c ≤ 0) = true) :
    decide (studentLexCmp a c ≤ 0) = true := by
  simp only [decide_eq_true_eq, studentLexCmp_le_iff] at h1 h2 ⊢
  rcases h1 with h1 | ⟨h1a, h1b⟩
  · rcases h2 with h2 | ⟨h2a, h2b⟩
    · left
      omega
    · left
      omega
  · rcases h2 with h2 | ⟨h2a, h2b⟩
    · left
      omega
    · right
      exact ⟨by omega, localeCompare_trans h1b h2b⟩

/-- Claim C8 (amended): provided no student with a missing year coexists
with a student whose year is exactly 0 — the one configuration where the
code compares "equal" without the name tiebreak — `sortStudents` returns a
permutation of the input ordered descending by effective year (missing year
treated as 0) with ties broken ascending by name. -/
theorem sortStudents_spec (students : List Student)
    (hmix : ∀ a ∈ students, ∀ b ∈ students,
      ¬ (a.year = none ∧ b.year = some 0)) :
    (sortStudents students).Perm students
    ∧ (sortStudents students).Pairwise (fun a b =>
        b.year.getD 0 < a.year.getD 0
        ∨ (a.year.getD 0 = b.year.getD 0
            ∧ localeCompare a.name b.name ≤ 0)) := by
  constructor
  · exact perm_sortLe _ _
  · have hagree : ∀ a ∈ students, ∀ b ∈ students,
        decide (studentCmp a b ≤ 0) = decide (studentLexCmp a b ≤ 0) := by
      intro a ha b hb
      have hcmp : studentCmp a b = studentLexCmp a b := by
        rw [studentCmp, studentLexCmp]
        by_cases hby : b.year = a.year
        · rw [if_neg (by simp [hby]), if_neg (by simp [hby])]
        · rw [if_pos hby]
          by_cases heff : a.year.getD 0 ≠ b.year.getD 0
          · rw [if_pos heff]
          · exfalso
            have heq : a.year.getD 0 = b.year.getD 0 := not_ne_iff.mp heff
            cases ha2 : a.year with
            | none =>
                cases hb2 : b.year with
                | none => exact hby (by rw [ha2, hb2])
                | some bv =>
                    have hbv : bv = 0 := by
                      rw [ha2, hb2] at heq
                      simpa using heq.symm
                    exact hmix a ha b hb ⟨ha2, by rw [hb2, hbv]⟩
            | some av =>
                cases hb2 : b.year with
                | none =>
                    have hav : av = 0 := by
                      rw [ha2, hb2] at heq
                      simpa using heq
                    exact hmix b hb a ha ⟨hb2, by rw [ha2, hav]⟩
                | some bv =>
                    have : av = bv := by
                      rw [ha2, hb2] at heq
                      simpa using heq
                    exact hby (by rw [ha2, hb2, this])
      rw [hcmp]
    have hs : sortStudents students
        = sortLe (fun a b => decide (studentLexCmp a b ≤ 0)) students := by
      rw [sortStudents]
      exact sortLe_congr hagree
    rw [hs]
    have hp := pairwise_sortLe studentLexCmp_total studentLexCmp_trans students
    refine hp.imp ?_
    intro a b hab
    simpa only [decide_eq_true_eq, studentLexCmp_le_iff] using hab

/-- Students used by the C8 witness. -/
def studentBob : Student :=
  { name := "Bob".toList, school := [], subjects := [], year := some 2020 }

/-- Second student used by the C8 witness. -/
def studentAlice : Student :=
  { name := "Alice".toList, school := [], subjects := [], year := some 2021 }

/-- Witness for C8 (amended) on a list with all years present. -/
theorem sortStudents_spec_witness :
    (sortStudents [studentBob, studentAlice]).Perm [studentBob, studentAlice]
    ∧ (sortStudents [studentBob, studentAlice]).Pairwise (fun a b =>
        b.year.getD 0 < a.year.getD 0
        ∨ (a.year.getD 0 = b.year.getD 0
            ∧ localeCompare a.name b.name ≤ 0)) :=
  sortStudents_spec [studentBob, studentAlice] (by decide)

/-!
Claim C9.
-/

theorem clearExpired_clearExpired {T : Type} (now : Nat) (c : Cache T) :
    clearExpiredCache now (clearExpiredCache now c) = clearExpiredCache now c := by
  rw [clearExpiredCache, clearExpiredCache, List.filter_filter]
  simp [Bool.and_self]

theorem clearExpired_setEntry_fresh {T : Type} (now : Nat) (k : Nat × SOpts)
    (f : FuseInst T) (c : Cache T) :
    clearExpiredCache now (setEntry k { fuse := f, timestamp := now }
        (clearExpiredCache now c))
      = setEntry k { fuse := f, timestamp := now } (clearExpiredCache now c) := by
  apply List.filter_eq_self.mpr
  intro kv hkv
  rcases mem_setEntry hkv with h | h
  · subst h
    simp only [Bool.not_eq_true', decide_eq_false_iff_not, not_lt]
    omega
  · have h2 : kv ∈ c.filter
        (fun kv => !decide ((now : Int) - kv.2.timestamp > CACHE_TTL)) := h
    have h3 := List.of_mem_filter h2
    exact h3

theorem createFuzzySearch_idem {T : Type} (now : Nat) (data : List T)
    (options : SOpts) (cache : Cache T) :
    createFuzzySearch now data options
        ((createFuzzySearch now data options cache).2)
      = createFuzzySearch now data options cache := by
  cases h : findEntry (getCacheKey data options) (clearExpiredCache now cache)
    with
  | some e =>
      have h2 : createFuzzySearch now data options cache
          = (e.fuse, clearExpiredCache now cache) := by
        simp only [createFuzzySearch]
        rw [h]
      rw [h2]
      simp only [createFuzzySearch]
      rw [clearExpired_clearExpired, h]
  | none =>
      have h2 : createFuzzySearch now data options cache
          = (⟨data, mergeOpts DEFAULT_SEARCH_OPTIONS options⟩,
              setEntry (getCacheKey data options)
                ⟨⟨data, mergeOpts DEFAULT_SEARCH_OPTIONS options⟩, now⟩
                (clearExpiredCache now cache)) := by
        simp only [createFuzzySearch]
        rw [h]
      rw [h2]
      simp only [createFuzzySearch]
      rw [clearExpired_setEntry_fresh, findEntry_setEntry_self]

theorem courseSearchStage_idem
    (fs : FuseInst EnrichedCourse → Str → List (EnrichedCourse × Option Rat))
    (now : Nat) (enriched : List EnrichedCourse) (st : Option Str)
    (cache : Cache EnrichedCourse) :
    courseSearchStage fs now enriched st
        ((courseSearchStage fs now enriched st cache).2)
      = courseSearchStage fs now enriched st cache := by
  simp only [courseSearchStage]
  split_ifs
  all_goals first
    | rfl
    | rw [createFuzzySearch_idem]

theorem subjectFuzzyStage_idem
    (fs : FuseInst Subject → Str → List (Subject × Option Rat))
    (now : Nat) (lowPriority : List (Subject × Int)) (nq : Str)
    (cache : Cache Subject) :
    subjectFuzzyStage fs now lowPriority nq
        ((subjectFuzzyStage fs now lowPriority nq cache).2)
      = subjectFuzzyStage fs now lowPriority nq cache := by
  simp only [subjectFuzzyStage]
  split_ifs
  all_goals first
    | rfl
    | rw [createFuzzySearch_idem]

/-- Claim C9: re-running the same ranking call on the cache state left by
the first run, with unchanged inputs, returns the identical ordered result
(and the identical cache): all tie-breaks are deterministic and the cache
update is idempotent at a fixed instant. -/
theorem search_idempotent
    (fsC : FuseInst EnrichedCourse → Str → List (EnrichedCourse × Option Rat))
    (fsS : FuseInst Subject → Str → List (Subject × Option Rat))
    (now : Nat) (courses : List Course) (copts : CourseSearchOptions)
    (subjects : List Subject) (sopts : SubjectSearchOptions)
    (cacheC : Cache EnrichedCourse) (cacheS : Cache Subject) :
    searchCourses fsC now courses copts
        ((searchCourses fsC now courses copts cacheC).2)
      = searchCourses fsC now courses copts cacheC
    ∧ searchSubjects fsS now subjects sopts
        ((searchSubjects fsS now subjects sopts cacheS).2)
      = searchSubjects fsS now subjects sopts cacheS := by
  constructor
  · simp only [searchCourses]
    rw [courseSearchStage_idem]
  · simp only [searchSubjects]
    split_ifs
    · rfl
    · rw [subjectFuzzyStage_idem]
